import Mathlib

/-!
Shallow embedding of `bazelisk.py` (Python launcher for Bazel), together with
proofs checking the natural-language specification against the code.

Conventions used throughout:
* Python strings are Lean `String`s; `str.strip()` is `pyStrip`.
* The environment (`os.environ`) is a function `String → Option String`.
* The filesystem is made explicit.  For the directory walk of
  `find_workspace_root` a path is a list of components (with `[]` the
  filesystem root, whose `dirname` is itself); for the download/verify code
  paths are the very strings the Python code builds with `os.path.join`.
* Time (`time.time()`, `os.path.getmtime`) is an `Int` parameter.
* Network responses are parameters: the GitHub releases endpoint is a list of
  `Release` records.
* Fallible Python code (exceptions / `SystemExit`) returns `Except`.
-/

set_option autoImplicit false

namespace Bazelisk

/-- `ONE_HOUR = 1 * 60 * 60` from `bazelisk.py`. -/
def ONE_HOUR : Int := 1 * 60 * 60

/-- Exit code used when GPG is installed but the binary cannot be
authenticated (`AUTHENTICATION_FAILURE_EXIT_CODE = 2`). -/
def AUTHENTICATION_FAILURE_EXIT_CODE : Nat := 2

/-- ASCII whitespace recognised by Python `str.strip()`. -/
def isPySpace (c : Char) : Bool :=
  c = ' ' || c = '\t' || c = '\n' || c = '\r' || c = '\x0b' || c = '\x0c'

/-- Python `s.strip()`: remove leading and trailing whitespace. -/
def pyStrip (s : String) : String :=
  ⟨((s.data.dropWhile isPySpace).reverse.dropWhile isPySpace).reverse⟩

/-! ## Version directive resolution (`decide_which_bazel_version_to_use`) -/

/-- A filesystem path, as a list of components from the root; `[]` is the
root directory, which is its own `os.path.dirname` fixed point. -/
abbrev DirPath := List String

/-- The part of the filesystem `decide_which_bazel_version_to_use` looks at:
each existing file's content (directories are irrelevant here because only
plain marker/pin files are tested). -/
abbrev TextFS := DirPath → Option String

/-- The process environment `os.environ`: `some v` when the variable is set
(possibly to the empty string), `none` when unset. -/
abbrev Env := String → Option String

/-- The walk of `find_workspace_root`, with explicit fuel (`root.length`
always suffices, as each step drops one path component; the fuel only makes
the recursion structural). -/
def find_workspace_root_go (fs : TextFS) : Nat → DirPath → Option DirPath
  | fuel, root =>
    if (fs (root ++ ["WORKSPACE"])).isSome then some root
    else
      match root with
      | [] => none
      | _ :: _ =>
        match fuel with
        | 0 => none
        | f + 1 => find_workspace_root_go fs f root.dropLast

/-- `find_workspace_root(root)`: walk upward from `root` until a directory
containing a `WORKSPACE` file is found (`os.path.dirname` drops the last
component); `None` when the filesystem root is reached without finding
one. -/
def find_workspace_root (fs : TextFS) (root : DirPath) : Option DirPath :=
  find_workspace_root_go fs root.length root

/-- `decide_which_bazel_version_to_use()`: the env var `USE_BAZEL_VERSION`
(presence test only), else the stripped contents of
`<workspace_root>/.bazelversion` when a workspace root with that file
exists, else the literal `"latest"`.  `cwd` is `os.getcwd()`. -/
def decide_which_bazel_version_to_use (env : Env) (fs : TextFS) (cwd : DirPath) :
    String :=
  match env "USE_BAZEL_VERSION" with
  | some v => v
  | none =>
    match find_workspace_root fs cwd with
    | some workspace_root =>
      match fs (workspace_root ++ [".bazelversion"]) with
      | some content => pyStrip content
      | none => "latest"
    | none => "latest"

/-- Directive resolution as the SPEC words it (for comparison with the code):
the override variable applies only when it is present AND non-empty. -/
def decide_directive_spec (env : Env) (fs : TextFS) (cwd : DirPath) : String :=
  match env "USE_BAZEL_VERSION" with
  | some v =>
    if v ≠ "" then v
    else
      match find_workspace_root fs cwd with
      | some workspace_root =>
        match fs (workspace_root ++ [".bazelversion"]) with
        | some content => pyStrip content
        | none => "latest"
      | none => "latest"
  | none =>
    match find_workspace_root fs cwd with
    | some workspace_root =>
      match fs (workspace_root ++ [".bazelversion"]) with
      | some content => pyStrip content
      | none => "latest"
    | none => "latest"

/-! ## `distutils.version.LooseVersion` and `resolve_latest_version` -/

/-- One parsed component of a `LooseVersion`: an integer (a run of ASCII
digits) or a string component (a run of lowercase letters from the regex
alternative `[a-z]+`, or a run of characters matched by none of the regex
alternatives).  String components are kept as their code points so that the
Python string comparison is code-point comparison of these lists. -/
inductive VComp where
  | num (n : Nat)
  | str (s : List Nat)
  deriving DecidableEq, Repr

/-- Split off the maximal leading run of ASCII digits (`\d+`). -/
def spanDigits : List Char → List Char × List Char
  | [] => ([], [])
  | c :: rest =>
    if c.isDigit then
      let p := spanDigits rest
      (c :: p.1, p.2)
    else ([], c :: rest)

/-- Split off the maximal leading run of lowercase letters (`[a-z]+`). -/
def spanLower : List Char → List Char × List Char
  | [] => ([], [])
  | c :: rest =>
    if c.isLower then
      let p := spanLower rest
      (c :: p.1, p.2)
    else ([], c :: rest)

/-- A character matched by no alternative of `LooseVersion`'s component
regex `(\d+ | [a-z]+ | \.)`. -/
def isOtherChar (c : Char) : Bool :=
  !(c.isDigit || c.isLower || c = '.')

/-- Split off the maximal leading run of regex-unmatched characters; in
`re.split` such a run stays together as one separator string. -/
def spanOther : List Char → List Char × List Char
  | [] => ([], [])
  | c :: rest =>
    if isOtherChar c then
      let p := spanOther rest
      (c :: p.1, p.2)
    else ([], c :: rest)

/-- Numeric value of a digit run, as Python `int()` reads it. -/
def digitsToNat (l : List Char) : Nat :=
  l.foldl (fun acc c => 10 * acc + (c.toNat - 48)) 0

theorem spanDigits_snd_length (l : List Char) : (spanDigits l).2.length ≤ l.length := by
  induction l with
  | nil => simp [spanDigits]
  | cons c rest ih =>
    simp only [spanDigits]
    split
    · simpa using Nat.le_succ_of_le ih
    · simp

theorem spanLower_snd_length (l : List Char) : (spanLower l).2.length ≤ l.length := by
  induction l with
  | nil => simp [spanLower]
  | cons c rest ih =>
    simp only [spanLower]
    split
    · simpa using Nat.le_succ_of_le ih
    · simp

theorem spanOther_snd_length (l : List Char) : (spanOther l).2.length ≤ l.length := by
  induction l with
  | nil => simp [spanOther]
  | cons c rest ih =>
    simp only [spanOther]
    split
    · simpa using Nat.le_succ_of_le ih
    · simp

/-- The splitting loop of `LooseVersion.parse`, with explicit fuel
(`l.length` always suffices, as each step consumes at least one character;
the fuel only makes the recursion structural). -/
def tokenizeGo : Nat → List Char → List VComp
  | _, [] => []
  | 0, _ :: _ => []
  | fuel + 1, c :: rest =>
    if c.isDigit then
      VComp.num (digitsToNat (c :: (spanDigits rest).1)) :: tokenizeGo fuel (spanDigits rest).2
    else if c.isLower then
      VComp.str ((c :: (spanLower rest).1).map Char.toNat) :: tokenizeGo fuel (spanLower rest).2
    else if c = '.' then
      tokenizeGo fuel rest
    else
      VComp.str ((c :: (spanOther rest).1).map Char.toNat) :: tokenizeGo fuel (spanOther rest).2

/-- `LooseVersion.parse`: split the version string on
`(\d+ | [a-z]+ | \.)`, drop the `.` separators and empty pieces, and turn
digit runs into integers. -/
def tokenize (l : List Char) : List VComp :=
  tokenizeGo l.length l

/-- `LooseVersion(s).version`: the parsed component list. -/
def looseParse (s : String) : List VComp := tokenize s.data

/-- Python comparison of two integers, as an `Ordering`. -/
def cmpNat (a b : Nat) : Ordering :=
  if a < b then .lt else if b < a then .gt else .eq

/-- Python lexicographic comparison of two strings (as code-point lists). -/
def cmpNatList : List Nat → List Nat → Ordering
  | [], [] => .eq
  | [], _ :: _ => .lt
  | _ :: _, [] => .gt
  | a :: as, b :: bs =>
    match cmpNat a b with
    | .eq => cmpNatList as bs
    | o => o

/-- Python comparison of two components.  Comparing an `int` with a `str`
raises `TypeError`, modelled as `none`. -/
def cmpC : VComp → VComp → Option Ordering
  | .num a, .num b => some (cmpNat a b)
  | .str a, .str b => some (cmpNatList a b)
  | _, _ => none

/-- Python list comparison of two component lists, as `LooseVersion._cmp`
uses it: find the first index whose elements differ under `==` (equality
between `int` and `str` is `False`, never an error), compare there with `<`
(which raises `TypeError` on mixed types, modelled as `none`); if one list
is a prefix of the other the shorter is smaller. -/
def cmpV : List VComp → List VComp → Option Ordering
  | [], [] => some .eq
  | [], _ :: _ => some .lt
  | _ :: _, [] => some .gt
  | a :: as, b :: bs => if a = b then cmpV as bs else cmpC a b

/-- One entry of the GitHub releases JSON document: the fields
`resolve_latest_version` reads. -/
structure Release where
  tag_name : String
  prerelease : Bool
  deriving DecidableEq, Repr

/-- The non-prerelease tags of a catalog, in document order — the values
the generator inside `max(...)` yields. -/
def nonPrereleaseTags (releases : List Release) : List String :=
  (releases.filter (fun r => !r.prerelease)).map (fun r => r.tag_name)

/-- Python `max` over `LooseVersion`s: keep the first element, replace the
running maximum whenever a later element compares strictly greater; a
`TypeError` during a comparison (or an empty sequence, `ValueError`)
aborts, modelled as `none`. -/
def pyMaxGo (acc : String) : List String → Option String
  | [] => some acc
  | y :: ys =>
    match cmpV (looseParse y) (looseParse acc) with
    | some .gt => pyMaxGo y ys
    | some _ => pyMaxGo acc ys
    | none => none

/-- `resolve_latest_version()`: fetch the releases document, drop entries
flagged `prerelease`, and return `str(max(...))` of the remaining tags
under `LooseVersion` comparison (the original tag string of the maximum). -/
def resolve_latest_version (releases : List Release) : Option String :=
  match nonPrereleaseTags releases with
  | [] => none
  | t :: ts => pyMaxGo t ts

/-! ### Order lemmas for the `LooseVersion` comparison -/

theorem cmpNat_eq_iff {a b : Nat} : cmpNat a b = .eq ↔ a = b := by
  unfold cmpNat
  by_cases h1 : a < b
  · simp only [if_pos h1]
    constructor <;> intro h
    · cases h
    · omega
  · by_cases h2 : b < a
    · simp only [if_neg h1, if_pos h2]
      constructor <;> intro h
      · cases h
      · omega
    · simp only [if_neg h1, if_neg h2, true_iff]
      omega

theorem cmpNat_lt_iff {a b : Nat} : cmpNat a b = .lt ↔ a < b := by
  unfold cmpNat
  by_cases h1 : a < b
  · simp [h1]
  · by_cases h2 : b < a <;> simp [h1, h2]

theorem cmpNat_gt_iff {a b : Nat} : cmpNat a b = .gt ↔ b < a := by
  unfold cmpNat
  by_cases h1 : a < b
  · simp only [if_pos h1]
    constructor <;> intro h
    · cases h
    · omega
  · by_cases h2 : b < a <;> simp [h1, h2]

theorem cmpNatList_eq_iff {a b : List Nat} : cmpNatList a b = .eq ↔ a = b := by
  induction a generalizing b with
  | nil => cases b <;> simp [cmpNatList]
  | cons x xs ih =>
    cases b with
    | nil => simp [cmpNatList]
    | cons y ys =>
      simp only [cmpNatList]
      rcases h : cmpNat x y with _ | _ | _ <;> simp only [h]
      · have hxy : x ≠ y := by have := cmpNat_lt_iff.1 h; omega
        simp [hxy]
      · have hxy : x = y := cmpNat_eq_iff.1 h
        subst hxy
        simp [ih]
      · have hxy : x ≠ y := by have := cmpNat_gt_iff.1 h; omega
        simp [hxy]

theorem cmpNatList_gt_iff_lt {a b : List Nat} : cmpNatList a b = .gt ↔ cmpNatList b a = .lt := by
  induction a generalizing b with
  | nil => cases b <;> simp [cmpNatList]
  | cons x xs ih =>
    cases b with
    | nil => simp [cmpNatList]
    | cons y ys =>
      simp only [cmpNatList]
      rcases h : cmpNat x y with _ | _ | _ <;> simp only [h]
      · have hyx : cmpNat y x = .gt := cmpNat_gt_iff.2 (cmpNat_lt_iff.1 h)
        simp [hyx]
      · have hxy : x = y := cmpNat_eq_iff.1 h
        subst hxy
        simp only [cmpNat_eq_iff.2 rfl]
        exact ih
      · have hyx : cmpNat y x = .lt := cmpNat_lt_iff.2 (cmpNat_gt_iff.1 h)
        simp [hyx]

theorem cmpNatList_lt_trans {a b c : List Nat}
    (hab : cmpNatList a b = .lt) (hbc : cmpNatList b c = .lt) :
    cmpNatList a c = .lt := by
  induction a generalizing b c with
  | nil =>
    cases b with
    | nil => simp [cmpNatList] at hab
    | cons y ys =>
      cases c with
      | nil => simp [cmpNatList] at hbc
      | cons z zs => simp [cmpNatList]
  | cons x xs ih =>
    cases b with
    | nil => simp [cmpNatList] at hab
    | cons y ys =>
      cases c with
      | nil =>
        exfalso
        simp only [cmpNatList] at hbc
        rcases h : cmpNat y 0 <;> simp [h] at hbc
      | cons z zs =>
        simp only [cmpNatList] at hab hbc ⊢
        rcases hxy : cmpNat x y with _ | _ | _ <;> rcases hyz : cmpNat y z with _ | _ | _ <;>
            simp [hxy, hyz] at hab hbc ⊢
        · have h1 := cmpNat_lt_iff.1 hxy
          have h2 := cmpNat_lt_iff.1 hyz
          simp [cmpNat_lt_iff.2 (Nat.lt_trans h1 h2)]
        · have h1 := cmpNat_lt_iff.1 hxy
          have h2 := cmpNat_eq_iff.1 hyz
          simp [cmpNat_lt_iff.2 (h2 ▸ h1)]
        · have h1 := cmpNat_eq_iff.1 hxy
          have h2 := cmpNat_lt_iff.1 hyz
          simp [cmpNat_lt_iff.2 (h1 ▸ h2)]
        · have h1 := cmpNat_eq_iff.1 hxy
          have h2 := cmpNat_eq_iff.1 hyz
          simp [cmpNat_eq_iff.2 (h1.trans h2)]
          exact ih hab hbc

theorem cmpC_eq_iff {a b : VComp} : cmpC a b = some .eq ↔ a = b := by
  cases a <;> cases b <;> simp [cmpC, cmpNat_eq_iff, cmpNatList_eq_iff]

theorem cmpC_gt_iff_lt {a b : VComp} : cmpC a b = some .gt ↔ cmpC b a = some .lt := by
  cases a <;> cases b <;> simp [cmpC, cmpNat_gt_iff, cmpNat_lt_iff, cmpNatList_gt_iff_lt]

theorem cmpC_lt_trans {a b c : VComp}
    (hab : cmpC a b = some .lt) (hbc : cmpC b c = some .lt) :
    cmpC a c = some .lt := by
  cases a <;> cases b <;> cases c <;> simp [cmpC, cmpNat_lt_iff] at hab hbc ⊢
  · omega
  · exact cmpNatList_lt_trans hab hbc

theorem cmpV_refl (a : List VComp) : cmpV a a = some .eq := by
  induction a with
  | nil => rfl
  | cons x xs ih => simp [cmpV, ih]

theorem cmpV_eq_iff {a b : List VComp} : cmpV a b = some .eq ↔ a = b := by
  induction a generalizing b with
  | nil => cases b <;> simp [cmpV]
  | cons x xs ih =>
    cases b with
    | nil => simp [cmpV]
    | cons y ys =>
      simp only [cmpV]
      by_cases hxy : x = y
      · subst hxy; simp [ih]
      · simp [hxy, cmpC_eq_iff]

theorem cmpV_gt_iff_lt {a b : List VComp} : cmpV a b = some .gt ↔ cmpV b a = some .lt := by
  induction a generalizing b with
  | nil => cases b <;> simp [cmpV]
  | cons x xs ih =>
    cases b with
    | nil => simp [cmpV]
    | cons y ys =>
      simp only [cmpV]
      by_cases hxy : x = y
      · subst hxy; simp [ih]
      · have hyx : y ≠ x := fun h => hxy h.symm
        simp [hxy, hyx, cmpC_gt_iff_lt]

theorem cmpV_lt_trans {a b c : List VComp}
    (hab : cmpV a b = some .lt) (hbc : cmpV b c = some .lt) :
    cmpV a c = some .lt := by
  induction a generalizing b c with
  | nil =>
    cases b with
    | nil => simp [cmpV_refl] at hab
    | cons y ys =>
      cases c with
      | nil => simp [cmpV] at hbc
      | cons z zs => simp [cmpV]
  | cons x xs ih =>
    cases b with
    | nil => simp [cmpV] at hab
    | cons y ys =>
      cases c with
      | nil => simp [cmpV] at hbc
      | cons z zs =>
        simp only [cmpV] at hab hbc ⊢
        by_cases hxy : x = y <;> by_cases hyz : y = z
        · subst hxy; subst hyz
          simp only [if_pos rfl] at hab hbc ⊢
          exact ih hab hbc
        · subst hxy
          simp only [if_pos rfl, if_neg hyz] at hab hbc ⊢
          exact hbc
        · subst hyz
          simp only [if_pos rfl, if_neg hxy] at hab hbc ⊢
          exact hab
        · simp only [if_neg hxy, if_neg hyz] at hab hbc
          have hxz : x ≠ z := by
            intro he
            subst he
            have := cmpC_gt_iff_lt.2 hab
            simp [this] at hbc
          simp only [if_neg hxz]
          exact cmpC_lt_trans hab hbc

/-- The (partial) "less than or structurally equal" relation on parsed
component lists that the running maximum preserves. -/
def leV (a b : List VComp) : Prop := cmpV a b = some .lt ∨ a = b

theorem leV_refl (a : List VComp) : leV a a := Or.inr rfl

theorem leV_lt_trans {a b c : List VComp} (hab : leV a b) (hbc : cmpV b c = some .lt) :
    cmpV a c = some .lt := by
  rcases hab with h | h
  · exact cmpV_lt_trans h hbc
  · exact h ▸ hbc

theorem lt_leV_trans {a b c : List VComp} (hab : cmpV a b = some .lt) (hbc : leV b c) :
    cmpV a c = some .lt := by
  rcases hbc with h | h
  · exact cmpV_lt_trans hab h
  · exact h ▸ hab

theorem leV_trans {a b c : List VComp} (hab : leV a b) (hbc : leV b c) : leV a c := by
  rcases hbc with h | h
  · exact Or.inl (leV_lt_trans hab h)
  · exact h ▸ hab

theorem leV_not_gt {a b : List VComp} (h : leV a b) : cmpV a b ≠ some .gt := by
  rcases h with h | h <;> simp [h, cmpV_refl]

/-- What a successful run of Python `max` guarantees: the result is the
accumulator or one of the remaining elements, it dominates the
accumulator, and it dominates every remaining element. -/
theorem pyMaxGo_spec (xs : List String) (acc r : String)
    (h : pyMaxGo acc xs = some r) :
    (r = acc ∨ r ∈ xs) ∧ leV (looseParse acc) (looseParse r) ∧
      ∀ t ∈ xs, leV (looseParse t) (looseParse r) := by
  induction xs generalizing acc with
  | nil =>
    simp only [pyMaxGo, Option.some_inj] at h
    subst h
    exact ⟨Or.inl rfl, leV_refl _, by simp⟩
  | cons y ys ih =>
    simp only [pyMaxGo] at h
    rcases hc : cmpV (looseParse y) (looseParse acc) with _ | o
    · simp [hc] at h
    · rcases o with _ | _ | _ <;> simp only [hc] at h
      · have ⟨hmem, hacc, hall⟩ := ih acc h
        refine ⟨hmem.imp id (List.mem_cons_of_mem y), hacc, ?_⟩
        intro t ht
        rcases List.mem_cons.1 ht with he | hm
        · subst he
          exact leV_trans (Or.inl hc) hacc
        · exact hall t hm
      · have ⟨hmem, hacc, hall⟩ := ih acc h
        have hya : looseParse y = looseParse acc := cmpV_eq_iff.1 hc
        refine ⟨hmem.imp id (List.mem_cons_of_mem y), hacc, ?_⟩
        intro t ht
        rcases List.mem_cons.1 ht with he | hm
        · subst he
          exact leV_trans (Or.inr hya) hacc
        · exact hall t hm
      · have ⟨hmem, hy, hall⟩ := ih y h
        have hay : cmpV (looseParse acc) (looseParse y) = some .lt := cmpV_gt_iff_lt.1 hc
        refine ⟨Or.inr (List.mem_cons.2 hmem), Or.inl (lt_leV_trans hay hy), ?_⟩
        intro t ht
        rcases List.mem_cons.1 ht with he | hm
        · subst he
          exact hy
        · exact hall t hm

/-! ## `resolve_version_label_to_number` -/

/-- The `latest_bazel` cache file inside the bazelisk directory: `none` when
absent, otherwise its content together with its modification time. -/
structure LatestCacheFile where
  content : String
  mtime : Int
  deriving DecidableEq, Repr

/-- Result of one call to `resolve_version_label_to_number`: the returned
string (or a propagated exception from `resolve_latest_version`, e.g. a
comparison `TypeError`, as `Except.error`), the cache file afterwards, and
how many network requests were made. -/
structure ResolveOutcome where
  result : Except Unit String
  cacheAfter : Option LatestCacheFile
  networkCalls : Nat
  deriving Repr

/-- `resolve_version_label_to_number(bazelisk_directory, version)`: for the
literal `"latest"`, use the `latest_bazel` cache file when it exists and
`abs(time.time() - mtime) < ONE_HOUR`, else fetch the releases document
(one network call), rewrite the cache file and return the result; any other
label is returned unchanged. -/
def resolve_version_label_to_number (cache : Option LatestCacheFile) (now : Int)
    (releases : List Release) (version : String) : ResolveOutcome :=
  if version = "latest" then
    match cache with
    | some f =>
      if |now - f.mtime| < ONE_HOUR then
        ⟨.ok (pyStrip f.content), some f, 0⟩
      else
        match resolve_latest_version releases with
        | some v => ⟨.ok v, some ⟨v, now⟩, 1⟩
        | none => ⟨.error (), some f, 1⟩
    | none =>
      match resolve_latest_version releases with
      | some v => ⟨.ok v, some ⟨v, now⟩, 1⟩
      | none => ⟨.error (), none, 1⟩
  else ⟨.ok version, cache, 0⟩

/-! ## `determine_urls` -/

/-- Match of `re.match(r'(\d*\.\d*(?:\.\d*)?)(rc\d)?', version)` on the
character list of `version`: `none` when the pattern does not match at the
start (in Python `.groups()` then raises `AttributeError`); otherwise the
two groups, the base version and the optional `rcN` suffix (note: `rc`
followed by exactly ONE digit).  The pattern needs no backtracking: `\d*`
runs never overlap the literal dots, and the optional groups only ever
consume characters the later parts cannot use. -/
def matchVersionRc (l : List Char) : Option (List Char × Option (List Char)) :=
  let p1 := spanDigits l
  match p1.2 with
  | '.' :: r2 =>
    let p2 := spanDigits r2
    let d3 : Option (List Char) :=
      match p2.2 with
      | '.' :: r4 => some ('.' :: (spanDigits r4).1)
      | _ => none
    let base := p1.1 ++ '.' :: p2.1 ++ d3.getD []
    let rest := match p2.2 with
      | '.' :: r4 => (spanDigits r4).2
      | other => other
    let rc : Option (List Char) :=
      match rest with
      | 'r' :: 'c' :: d :: _ => if d.isDigit then some ['r', 'c', d] else none
      | _ => none
    some (base, rc)
  | _ => none

/-- The two URLs `determine_urls` builds. -/
structure DownloadUrls where
  binary_url : String
  signature_url : String
  deriving DecidableEq, Repr

/-- `determine_urls(version, bazel_filename)`: split the version with the
regex above, then
`https://releases.bazel.build/{version}/{rc or "release"}/{filename}`, and
the signature URL is the binary URL with `.sig` appended. -/
def determine_urls (version bazel_filename : String) : Option DownloadUrls :=
  match matchVersionRc version.data with
  | none => none
  | some (base, rc) =>
    let seg := match rc with
      | some r => String.mk r
      | none => "release"
    let binary_url :=
      "https://releases.bazel.build/" ++ String.mk base ++ "/" ++ seg ++ "/" ++ bazel_filename
    some ⟨binary_url, binary_url ++ ".sig"⟩

/-- URL construction as the SPEC words it, with pattern
`(\d+\.\d+(\.\d+)?)(rc\d+)?`: non-empty numeric components and a
multi-digit rc suffix.  Used only to compare the spec against the code. -/
def determine_urls_specVariant (version bazel_filename : String) : Option DownloadUrls :=
  let l := version.data
  let p1 := spanDigits l
  if p1.1 = [] then none
  else
    match p1.2 with
    | '.' :: r2 =>
      let p2 := spanDigits r2
      if p2.1 = [] then none
      else
        let d3 : Option (List Char) :=
          match p2.2 with
          | '.' :: r4 => if (spanDigits r4).1 = [] then none else some ('.' :: (spanDigits r4).1)
          | _ => none
        let base := p1.1 ++ '.' :: p2.1 ++ d3.getD []
        let rest := match d3 with
          | some _ =>
            match p2.2 with
            | '.' :: r4 => (spanDigits r4).2
            | other => other
          | none => p2.2
        let rc : Option (List Char) :=
          match rest with
          | 'r' :: 'c' :: r5 =>
            if (spanDigits r5).1 = [] then none else some ('r' :: 'c' :: (spanDigits r5).1)
          | _ => none
        let seg := match rc with
          | some r => String.mk r
          | none => "release"
        let binary_url :=
          "https://releases.bazel.build/" ++ String.mk base ++ "/" ++ seg ++ "/" ++ bazel_filename
        some ⟨binary_url, binary_url ++ ".sig"⟩
    | _ => none

/-! ## `determine_bazel_filename` and the platform -/

/-- `normalized_machine_arch_name()`: `platform.machine().lower()` with
`amd64` mapped to `x86_64`.  The lowercased machine name is an input. -/
def normalized_machine_arch_name (machine : String) : String :=
  if machine = "amd64" then "x86_64" else machine

/-- `determine_bazel_filename(version)`: reject non-`x86_64` machines and
operating systems other than linux/darwin/windows, else build
`bazel-{version}-{os}-{machine}` with `.exe` appended on Windows.  The
lowercased `platform.system()` value is an input. -/
def determine_bazel_filename (machine operating_system version : String) :
    Except String String :=
  let m := normalized_machine_arch_name machine
  if m ≠ "x86_64" then
    .error ("Unsupported machine architecture \x22" ++ m ++
      "\x22. Bazel currently only supports x86_64.")
  else if operating_system ≠ "linux" && operating_system ≠ "darwin" &&
      operating_system ≠ "windows" then
    .error ("Unsupported operating system \x22" ++ operating_system ++
      "\x22. Bazel currently only supports Linux, macOS and Windows.")
  else
    let filename_ending := if operating_system = "windows" then ".exe" else ""
    .ok ("bazel-" ++ version ++ "-" ++ operating_system ++ "-" ++ m ++ filename_ending)

/-! ## Filesystem model for download and verification

Paths are the strings the Python code builds (`os.path.join` with `/`).
For each file only the data the claims mention is tracked: whether it
exists and whether its executable bit is set.  Directories appear only as
the ephemeral GPG home directory, tracked by name. -/

/-- Filesystem state: for each path, `some e` when a file exists there
(`e` = executable bit), and the set of existing directories. -/
structure FS where
  files : String → Option Bool
  dirs : String → Bool

/-- `open(path, 'wb')` / `shutil.copyfileobj`: create or truncate a regular,
non-executable file at `path` (what `download_file` leaves behind). -/
def FS.write (fs : FS) (p : String) : FS :=
  { fs with files := fun q => if q = p then some false else fs.files q }

/-- `os.chmod(path, 0o755)`: set the executable bit of the file at `path`. -/
def FS.chmod755 (fs : FS) (p : String) : FS :=
  { fs with files := fun q => if q = p then (fs.files q).map (fun _ => true) else fs.files q }

/-- `os.rename(src, dst)`: move the file at `src` to `dst`. -/
def FS.rename (fs : FS) (src dst : String) : FS :=
  { fs with files := fun q =>
      if q = src then none else if q = dst then fs.files src else fs.files q }

/-- `os.unlink(path)`: remove the file at `path`. -/
def FS.unlink (fs : FS) (p : String) : FS :=
  { fs with files := fun q => if q = p then none else fs.files q }

/-- `tempfile.mkdtemp`: create the (fresh) directory named `d`. -/
def FS.mkdir (fs : FS) (d : String) : FS :=
  { fs with dirs := fun q => if q = d then true else fs.dirs q }

/-- `shutil.rmtree(d)`: remove the directory named `d`. -/
def FS.rmtree (fs : FS) (d : String) : FS :=
  { fs with dirs := fun q => if q = d then false else fs.dirs q }

/-! ## `verify_authenticity` and `download_bazel_into_directory` -/

/-- The outcomes of the external `gpg` processes `verify_authenticity`
runs, as exit-code-zero flags: whether `gpg --batch --version` succeeds
(GPG installed), and whether the ownertrust import, the public-key import
and the `--verify` of signature against binary each succeed. -/
structure GpgBehavior where
  installed : Bool
  importTrustOk : Bool
  importKeyOk : Bool
  verifyOk : Bool

/-- `verify_authenticity(binary_path, signature_path)`: `True` immediately
when GPG is not installed; otherwise create a fresh temporary GPG home
directory (`tempdir`), run the ownertrust import, the key import and the
verification, each failure returning `False` early, and remove the
directory unconditionally (`finally`) before returning. -/
def verify_authenticity (fs : FS) (g : GpgBehavior) (tempdir : String) : FS × Bool :=
  if !g.installed then (fs, true)
  else
    let fs1 := fs.mkdir tempdir
    let result := g.importTrustOk && (g.importKeyOk && g.verifyOk)
    (fs1.rmtree tempdir, result)

/-- How a `download_bazel_into_directory` call can end: a Python exception
with its message (unsupported platform), or `SystemExit` with an exit
status. -/
inductive DlError where
  | exc (msg : String)
  | exit (code : Nat)
  deriving DecidableEq, Repr

/-- `download_bazel_into_directory(version, directory)`: skip everything
when the final cache path already exists; otherwise download binary and
signature to `{path}.untrusted` and `{path}.sig`, authenticate, and either
rename the staging binary into place (valid) or delete it and raise
`SystemExit(AUTHENTICATION_FAILURE_EXIT_CODE)` (invalid).  On success the
executable bit is set and the path returned.  Downloads themselves are
assumed to succeed (the claims quantify over downloaded binaries). -/
def download_bazel_into_directory (machine operating_system version directory : String)
    (fs : FS) (g : GpgBehavior) (tempdir : String) : FS × Except DlError String :=
  match determine_bazel_filename machine operating_system version with
  | .error e => (fs, .error (.exc e))
  | .ok bazel_filename =>
    let binary_path := directory ++ "/" ++ bazel_filename
    if (fs.files binary_path).isSome then
      (fs.chmod755 binary_path, .ok binary_path)
    else
      match determine_urls version bazel_filename with
      | none => (fs, .error (.exc "AttributeError"))
      | some _urls =>
        let untrusted_binary_path := binary_path ++ ".untrusted"
        let signature_path := binary_path ++ ".sig"
        let fs1 := (fs.write untrusted_binary_path).write signature_path
        let vres := verify_authenticity fs1 g tempdir
        if vres.2 then
          ((vres.1.rename untrusted_binary_path binary_path).chmod755 binary_path,
            .ok binary_path)
        else
          (vres.1.unlink untrusted_binary_path,
            .error (.exit AUTHENTICATION_FAILURE_EXIT_CODE))

/-! ## `execute_bazel` and the launcher exit code -/

/-- What `execute_bazel` hands to `subprocess.Popen`: the argument vector
(`[bazel_path] + argv`) and the environment entries it adds before
spawning (the code adds none). -/
structure Launch where
  cmd : List String
  envAdded : List (String × String)
  deriving DecidableEq, Repr

/-- The spawn performed by `execute_bazel(bazel_path, argv)`: the resolved
binary itself with the forwarded arguments, under the unmodified
environment. -/
def execute_bazel_launch (bazel_path : String) (argv : List String) : Launch :=
  ⟨bazel_path :: argv, []⟩

/-- The wrapper-override condition the spec describes: an executable file
at `tools/bazel` under the workspace root (existence plus executable bit). -/
def wrapper_script_available (fs : FS) (workspace_root : String) : Bool :=
  fs.files (workspace_root ++ "/tools/bazel") = some true

/-- One observation of `p.wait()` inside the `while True` loop of
`execute_bazel`: either the wait is interrupted (`KeyboardInterrupt`) or
the child has terminated with an exit code. -/
inductive WaitEvent where
  | interrupt
  | exited (code : Int)
  deriving DecidableEq, Repr

/-- The `while True: try: return p.wait() except KeyboardInterrupt: pass`
loop, run against a trace of wait observations: interrupts are swallowed
and the wait re-entered; the loop returns only when a termination is
observed (`none` = the trace ended with the loop still waiting). -/
def execute_bazel_wait : List WaitEvent → Option Int
  | [] => none
  | .interrupt :: rest => execute_bazel_wait rest
  | .exited code :: _ => some code

/-- `sys.exit(main())` with `main` returning `execute_bazel(...)`: the
launcher's own exit code is whatever the wait loop returned. -/
def launcher_exit_code (trace : List WaitEvent) : Option Int :=
  execute_bazel_wait trace

/-! ## Shared helper lemmas -/

theorem self_ne_append {s t : String} (h : t ≠ "") : s ≠ s ++ t := by
  intro he
  have hl := congrArg String.length he
  simp only [String.length_append] at hl
  apply h
  cases t with
  | mk data =>
    cases data with
    | nil => rfl
    | cons c cs =>
      have hc : (String.mk (c :: cs)).length = cs.length + 1 := rfl
      omega

theorem append_ne_self {s t : String} (h : t ≠ "") : s ++ t ≠ s :=
  fun he => self_ne_append h he.symm

/-- Any version label other than the literal `latest` passes through
`resolve_version_label_to_number` unchanged, with no network call and the
cache file untouched. -/
theorem resolve_nonlatest (cache : Option LatestCacheFile) (now : Int)
    (releases : List Release) {version : String} (h : version ≠ "latest") :
    resolve_version_label_to_number cache now releases version =
      ⟨.ok version, cache, 0⟩ := by
  unfold resolve_version_label_to_number
  rw [if_neg h]

theorem latest_dash_ne (n : String) : "latest-" ++ n ≠ "latest" := by
  intro he
  have hl := congrArg String.length he
  rw [String.length_append] at hl
  have h7 : ("latest-" : String).length = 7 := rfl
  have h6 : ("latest" : String).length = 6 := rfl
  omega

/-! ## The claims -/

/-- Claim C10: for every version string other than the literal `latest`,
`resolve_version_label_to_number` returns that string unchanged, performing
no network access and neither reading nor writing the `latest_bazel` cache
file; explicit release and release-candidate specifiers pass through with
no syntax validation. -/
theorem resolve_version_label_identity_on_nonlatest (cache : Option LatestCacheFile)
    (now : Int) (releases : List Release) (version : String) (h : version ≠ "latest") :
    (resolve_version_label_to_number cache now releases version).result = .ok version ∧
    (resolve_version_label_to_number cache now releases version).cacheAfter = cache ∧
    (resolve_version_label_to_number cache now releases version).networkCalls = 0 := by
  rw [resolve_nonlatest cache now releases h]
  exact ⟨rfl, rfl, rfl⟩

/-- Witness for C10 at the release-candidate specifier `0.20.0rc2`. -/
theorem resolve_version_label_identity_on_nonlatest_witness :
    (resolve_version_label_to_number (some ⟨"0.19.0", 0⟩) 100 [] "0.20.0rc2").result =
        .ok "0.20.0rc2" ∧
    (resolve_version_label_to_number (some ⟨"0.19.0", 0⟩) 100 [] "0.20.0rc2").cacheAfter =
        some ⟨"0.19.0", 0⟩ ∧
    (resolve_version_label_to_number (some ⟨"0.19.0", 0⟩) 100 [] "0.20.0rc2").networkCalls = 0 :=
  resolve_version_label_identity_on_nonlatest (some ⟨"0.19.0", 0⟩) 100 [] "0.20.0rc2"
    (by decide)

/-- Claim C5, counterexample: the code has no `latest-N` handling at all.
With a fresh cache whose catalog answer is `0.20.0`, resolving `latest`
gives `0.20.0`, but resolving `latest-0` — which the claim says resolves
identically to `latest` — returns the literal string `latest-0` unchanged
and raises no `ConfigurationError` for any offset. -/
theorem latest_offset_counterexample :
    (resolve_version_label_to_number (some ⟨"0.20.0", 0⟩) 100 [] "latest").result =
        .ok "0.20.0" ∧
    (resolve_version_label_to_number (some ⟨"0.20.0", 0⟩) 100 [] "latest-0").result =
        .ok "latest-0" ∧
    (resolve_version_label_to_number (some ⟨"0.20.0", 0⟩) 100 [] "latest-5").result =
        .ok "latest-5" ∧
    (Except.ok "latest-0" : Except Unit String) ≠ .ok "0.20.0" := by
  refine ⟨rfl, rfl, rfl, ?_⟩
  intro he
  injection he with h
  exact absurd h (by decide)

/-- Claim C5 as amended: `resolve_version_label_to_number` treats every
label of the form `latest-N` (like any label other than the literal
`latest`) as an explicit version: it is returned unchanged, the history is
never consulted, and no out-of-range error can occur. -/
theorem latest_offset_passed_through (cache : Option LatestCacheFile) (now : Int)
    (releases : List Release) (n : String) :
    resolve_version_label_to_number cache now releases ("latest-" ++ n) =
      ⟨.ok ("latest-" ++ n), cache, 0⟩ :=
  resolve_nonlatest cache now releases (latest_dash_ne n)

/-- Claim C8: with a cache file younger than one hour, resolving `latest`
makes no network call and returns the stripped content of the cache file;
on cache miss or staleness the endpoint is contacted exactly once and the
cache file is rewritten with the new result. -/
theorem resolve_latest_cache_behaviour (content : String) (mtime now : Int)
    (releases : List Release) (hfresh : 0 ≤ now - mtime ∧ now - mtime < ONE_HOUR) :
    resolve_version_label_to_number (some ⟨content, mtime⟩) now releases "latest" =
      ⟨.ok (pyStrip content), some ⟨content, mtime⟩, 0⟩ ∧
    (∀ cache : Option LatestCacheFile,
      (cache = none ∨ ∃ f, cache = some f ∧ ¬(|now - f.mtime| < ONE_HOUR)) →
      (resolve_version_label_to_number cache now releases "latest").networkCalls = 1 ∧
      ∀ v, resolve_latest_version releases = some v →
        (resolve_version_label_to_number cache now releases "latest").result = .ok v ∧
        (resolve_version_label_to_number cache now releases "latest").cacheAfter =
          some ⟨v, now⟩) := by
  constructor
  · have habs : |now - mtime| < ONE_HOUR := by
      rw [abs_of_nonneg hfresh.1]
      exact hfresh.2
    simp [resolve_version_label_to_number, habs]
  · intro cache hc
    rcases hc with he | ⟨f, he, hstale⟩
    · subst he
      constructor
      · simp only [resolve_version_label_to_number, if_pos rfl]
        cases hr : resolve_latest_version releases <;> simp [hr]
      · intro v hv
        simp [resolve_version_label_to_number, hv]
    · subst he
      constructor
      · simp only [resolve_version_label_to_number, if_pos rfl]
        rw [if_neg hstale]
        cases hr : resolve_latest_version releases <;> simp [hr]
      · intro v hv
        simp only [resolve_version_label_to_number, if_pos rfl]
        rw [if_neg hstale, hv]
        exact ⟨rfl, rfl⟩

/-- Witness for C8: a 100-second-old cache containing `0.19.0` is used
verbatim with zero network calls, and a missing cache triggers one fetch
returning the catalog maximum `0.20.0`. -/
theorem resolve_latest_cache_behaviour_witness :
    (resolve_version_label_to_number (some ⟨" 0.19.0\n", 0⟩) 100 [⟨"0.20.0", false⟩]
        "latest" = ⟨.ok "0.19.0", some ⟨" 0.19.0\n", 0⟩, 0⟩) ∧
    (resolve_version_label_to_number (none : Option LatestCacheFile) 100
        [⟨"0.20.0", false⟩] "latest").networkCalls = 1 ∧
    (resolve_version_label_to_number (none : Option LatestCacheFile) 100
        [⟨"0.20.0", false⟩] "latest").result = .ok "0.20.0" ∧
    (resolve_version_label_to_number (none : Option LatestCacheFile) 100
        [⟨"0.20.0", false⟩] "latest").cacheAfter = some ⟨"0.20.0", 100⟩ := by
  have h := resolve_latest_cache_behaviour " 0.19.0\n" 0 100 [⟨"0.20.0", false⟩]
    (by constructor <;> decide)
  have h2 := h.2 none (Or.inl rfl)
  have h3 := h2.2 "0.20.0" (by rfl)
  exact ⟨h.1, h2.1, h3.1, h3.2⟩

/-- Claim C4: the wait loop of `execute_bazel` swallows every interrupt
observation and re-enters the wait — it cannot return while only
interrupts have been observed — and when the child terminates its exit
code is returned and becomes the launcher's own exit code unchanged. -/
theorem execute_bazel_wait_propagates_exit (n : Nat) (c : Int) :
    execute_bazel_wait (List.replicate n .interrupt ++ [.exited c]) = some c ∧
    execute_bazel_wait (List.replicate n .interrupt) = none ∧
    launcher_exit_code (List.replicate n .interrupt ++ [.exited c]) = some c := by
  refine ⟨?_, ?_, ?_⟩ <;> induction n with
  | zero => rfl
  | succ m ih => simpa [List.replicate_succ, execute_bazel_wait, launcher_exit_code] using ih

/-- Claim C6, counterexample: under the code's `LooseVersion` comparison an
`rc` tag sorts AFTER (greater than) the bare release of the same numeric
prefix, not before it as the claim states: with both `0.10.0` and
`0.10.0rc1` in the catalog and neither flagged prerelease, `latest`
resolves to `0.10.0rc1`, whereas under the claimed ordering the maximum
would be `0.10.0`. -/
theorem rc_after_bare_release_counterexample :
    resolve_latest_version [⟨"0.10.0", false⟩, ⟨"0.10.0rc1", false⟩] = some "0.10.0rc1" ∧
    cmpV (looseParse "0.10.0rc1") (looseParse "0.10.0") = some .gt ∧
    ("0.10.0rc1" : String) ≠ "0.10.0" :=
  ⟨rfl, by decide, by decide⟩

/-- Claim C6 as amended: entries flagged prerelease are excluded, and
`latest` resolves to a maximum of the remaining tags under the
`LooseVersion` comparison, in which dotted numeric components compare
numerically (`0.9.0 < 0.10.0`) but a suffix such as `rc` sorts AFTER the
bare release of the same numeric prefix (`0.10.0 < 0.10.0rc1`); no sorted
history is built, only the maximum is computed. -/
theorem resolve_latest_version_is_loose_max (releases : List Release) (r : String)
    (h : resolve_latest_version releases = some r) :
    r ∈ nonPrereleaseTags releases ∧
    (∀ t ∈ nonPrereleaseTags releases,
        cmpV (looseParse t) (looseParse r) ≠ some .gt) ∧
    cmpV (looseParse "0.9.0") (looseParse "0.10.0") = some .lt ∧
    cmpV (looseParse "0.10.0") (looseParse "0.10.0rc1") = some .lt := by
  unfold resolve_latest_version at h
  rcases he : nonPrereleaseTags releases with _ | ⟨t, ts⟩
  · rw [he] at h
    cases h
  · rw [he] at h
    have ⟨hmem, hacc, hall⟩ := pyMaxGo_spec ts t r h
    refine ⟨?_, ?_, by decide, by decide⟩
    · rcases hmem with h1 | h1
      · exact h1 ▸ List.mem_cons_self t ts
      · exact List.mem_cons_of_mem t h1
    · intro u hu
      rcases List.mem_cons.1 hu with h1 | h1
      · exact h1 ▸ leV_not_gt hacc
      · exact leV_not_gt (hall u h1)

/-- Witness for C6 at the spec's own example catalog
`0.9.0, 0.10.0, 0.10.0rc1` (none prerelease), whose maximum under the
code's comparison is `0.10.0rc1`. -/
theorem resolve_latest_version_is_loose_max_witness :
    "0.10.0rc1" ∈
      nonPrereleaseTags [⟨"0.9.0", false⟩, ⟨"0.10.0", false⟩, ⟨"0.10.0rc1", false⟩] ∧
    (∀ t ∈ nonPrereleaseTags [⟨"0.9.0", false⟩, ⟨"0.10.0", false⟩, ⟨"0.10.0rc1", false⟩],
        cmpV (looseParse t) (looseParse "0.10.0rc1") ≠ some .gt) ∧
    cmpV (looseParse "0.9.0") (looseParse "0.10.0") = some .lt ∧
    cmpV (looseParse "0.10.0") (looseParse "0.10.0rc1") = some .lt :=
  resolve_latest_version_is_loose_max
    [⟨"0.9.0", false⟩, ⟨"0.10.0", false⟩, ⟨"0.10.0rc1", false⟩] "0.10.0rc1" rfl

/-- Environment of the C9 counterexample: the override variable is present
but empty. -/
def c9Env : Env := fun k => if k = "USE_BAZEL_VERSION" then some "" else none

/-- Filesystem of the C9 counterexample: a workspace root `repo` holding a
`WORKSPACE` marker and a `.bazelversion` pin file with `0.19.0`. -/
def c9FS : TextFS := fun p =>
  if p = ["repo", "WORKSPACE"] then some ""
  else if p = ["repo", ".bazelversion"] then some "0.19.0" else none

/-- Claim C9, counterexample: the code tests only PRESENCE of
`USE_BAZEL_VERSION` (`in os.environ`), not non-emptiness.  With the
variable set to the empty string and a pin file containing `0.19.0`, the
code returns the empty string, while the claimed precedence (override only
when present and non-empty) would fall through to the pin file and give
`0.19.0`. -/
theorem empty_override_env_counterexample :
    c9Env "USE_BAZEL_VERSION" = some "" ∧
    decide_which_bazel_version_to_use c9Env c9FS ["repo"] = "" ∧
    decide_directive_spec c9Env c9FS ["repo"] = "0.19.0" ∧
    ("" : String) ≠ "0.19.0" :=
  ⟨rfl, rfl, rfl, by decide⟩

/-- Claim C9 as amended: precedence with first match winning, where the
override variable applies whenever it is PRESENT (even when empty): (1) the
value of `USE_BAZEL_VERSION`; (2) the stripped contents of the
`.bazelversion` pin file under the workspace root found by walking upward
to the `WORKSPACE` marker, falling silently through when no marker or no
pin file exists; (3) the literal `latest`.  The function is pure: no
network access is possible in this step. -/
theorem decide_version_precedence (env : Env) (fs : TextFS) (cwd : DirPath) :
    (∀ v, env "USE_BAZEL_VERSION" = some v →
        decide_which_bazel_version_to_use env fs cwd = v) ∧
    (env "USE_BAZEL_VERSION" = none →
      (∀ root content, find_workspace_root fs cwd = some root →
          fs (root ++ [".bazelversion"]) = some content →
          decide_which_bazel_version_to_use env fs cwd = pyStrip content) ∧
      (∀ root, find_workspace_root fs cwd = some root →
          fs (root ++ [".bazelversion"]) = none →
          decide_which_bazel_version_to_use env fs cwd = "latest") ∧
      (find_workspace_root fs cwd = none →
          decide_which_bazel_version_to_use env fs cwd = "latest")) := by
  refine ⟨?_, ?_⟩
  · intro v hv
    simp [decide_which_bazel_version_to_use, hv]
  · intro henv
    refine ⟨?_, ?_, ?_⟩
    · intro root content hroot hpin
      simp [decide_which_bazel_version_to_use, henv, hroot, hpin]
    · intro root hroot hpin
      simp [decide_which_bazel_version_to_use, henv, hroot, hpin]
    · intro hroot
      simp [decide_which_bazel_version_to_use, henv, hroot]

/-- Witness for C9 at a set override variable: its value wins outright. -/
theorem decide_version_precedence_witness :
    decide_which_bazel_version_to_use
      (fun k => if k = "USE_BAZEL_VERSION" then some "0.20.0" else none) c9FS ["repo"] =
      "0.20.0" :=
  (decide_version_precedence
    (fun k => if k = "USE_BAZEL_VERSION" then some "0.20.0" else none) c9FS ["repo"]).1
    "0.20.0" rfl

theorem spanDigits_append (l r : List Char) (hl : ∀ x ∈ l, x.isDigit = true)
    (hr : ∀ c, r.head? = some c → c.isDigit = false) :
    spanDigits (l ++ r) = (l, r) := by
  induction l with
  | nil =>
    cases r with
    | nil => rfl
    | cons c rs =>
      simp only [List.nil_append, spanDigits]
      rw [if_neg]
      rw [hr c rfl]
      simp
  | cons x xs ih =>
    simp only [List.cons_append, spanDigits]
    rw [if_pos (hl x (List.mem_cons_self x xs))]
    simp only [List.append_eq, ih (fun y hy => hl y (List.mem_cons_of_mem x hy))]

/-- How the regex of `determine_urls` decomposes a well-formed
three-component version followed by an `rc` suffix: the base group
collects the dotted numeric components and the `rc` group captures `rc`
plus exactly ONE digit, ignoring everything after it. -/
theorem matchVersionRc_rc (d1 d2 d3 : List Char) (c : Char) (rest : List Char)
    (h1 : ∀ x ∈ d1, x.isDigit = true) (h2 : ∀ x ∈ d2, x.isDigit = true)
    (h3 : ∀ x ∈ d3, x.isDigit = true) (hc : c.isDigit = true) :
    matchVersionRc (d1 ++ '.' :: d2 ++ '.' :: d3 ++ 'r' :: 'c' :: c :: rest) =
      some (d1 ++ '.' :: d2 ++ '.' :: d3, some ['r', 'c', c]) := by
  have e1 : spanDigits (d1 ++ '.' :: (d2 ++ '.' :: (d3 ++ 'r' :: 'c' :: c :: rest))) =
      (d1, '.' :: (d2 ++ '.' :: (d3 ++ 'r' :: 'c' :: c :: rest))) := by
    refine spanDigits_append _ _ h1 ?_
    intro ch hch
    simp only [List.head?_cons, Option.some_inj] at hch
    subst hch
    decide
  have e2 : spanDigits (d2 ++ '.' :: (d3 ++ 'r' :: 'c' :: c :: rest)) =
      (d2, '.' :: (d3 ++ 'r' :: 'c' :: c :: rest)) := by
    refine spanDigits_append _ _ h2 ?_
    intro ch hch
    simp only [List.head?_cons, Option.some_inj] at hch
    subst hch
    decide
  have e3 : spanDigits (d3 ++ 'r' :: 'c' :: c :: rest) = (d3, 'r' :: 'c' :: c :: rest) := by
    refine spanDigits_append _ _ h3 ?_
    intro ch hch
    simp only [List.head?_cons, Option.some_inj] at hch
    subst hch
    decide
  simp [matchVersionRc, e1, e2, e3, hc]

/-- How the regex of `determine_urls` decomposes a bare well-formed
three-component version: the whole string is the base group and no `rc`
suffix is captured. -/
theorem matchVersionRc_release (d1 d2 d3 : List Char)
    (h1 : ∀ x ∈ d1, x.isDigit = true) (h2 : ∀ x ∈ d2, x.isDigit = true)
    (h3 : ∀ x ∈ d3, x.isDigit = true) :
    matchVersionRc (d1 ++ '.' :: d2 ++ '.' :: d3) =
      some (d1 ++ '.' :: d2 ++ '.' :: d3, none) := by
  have e1 : spanDigits (d1 ++ '.' :: (d2 ++ '.' :: d3)) =
      (d1, '.' :: (d2 ++ '.' :: d3)) := by
    refine spanDigits_append _ _ h1 ?_
    intro ch hch
    simp only [List.head?_cons, Option.some_inj] at hch
    subst hch
    decide
  have e2 : spanDigits (d2 ++ '.' :: d3) = (d2, '.' :: d3) := by
    refine spanDigits_append _ _ h2 ?_
    intro ch hch
    simp only [List.head?_cons, Option.some_inj] at hch
    subst hch
    decide
  have e3 : spanDigits d3 = (d3, []) := by
    have h := spanDigits_append d3 [] h3 (fun ch hch => by cases hch)
    rwa [List.append_nil] at h
  simp [matchVersionRc, e1, e2, e3]

/-- Claim C7, counterexample: the code's pattern captures only a single
digit after `rc` (`(rc\d)?`), so for version `0.20.0rc10` the code builds
the `rc1` path segment while the claim's pattern `(rc\d+)?` would build
`rc10`; the two URL pairs differ. -/
theorem rc_single_digit_counterexample :
    determine_urls "0.20.0rc10" "bazel-0.20.0rc10-linux-x86_64" = some
      ⟨"https://releases.bazel.build/0.20.0/rc1/bazel-0.20.0rc10-linux-x86_64",
        "https://releases.bazel.build/0.20.0/rc1/bazel-0.20.0rc10-linux-x86_64.sig"⟩ ∧
    determine_urls_specVariant "0.20.0rc10" "bazel-0.20.0rc10-linux-x86_64" = some
      ⟨"https://releases.bazel.build/0.20.0/rc10/bazel-0.20.0rc10-linux-x86_64",
        "https://releases.bazel.build/0.20.0/rc10/bazel-0.20.0rc10-linux-x86_64.sig"⟩ ∧
    determine_urls "0.20.0rc10" "bazel-0.20.0rc10-linux-x86_64" ≠
      determine_urls_specVariant "0.20.0rc10" "bazel-0.20.0rc10-linux-x86_64" :=
  ⟨rfl, rfl, by decide⟩

/-- Claim C7 as amended: URL construction splits the version via the
pattern `(\d*\.\d*(?:\.\d*)?)(rc\d)?` — numeric components may be empty and
the rc suffix captures exactly ONE digit, so a multi-digit candidate number
is truncated — then builds the binary URL on the fixed host
`https://releases.bazel.build` with path segment `rc<d>` when an rc suffix
was captured and `release` otherwise; the signature URL is exactly the
binary URL with `.sig` appended. -/
theorem determine_urls_structure (d1 d2 d3 : List Char) (c : Char) (rest : List Char)
    (bazel_filename : String)
    (h1 : ∀ x ∈ d1, x.isDigit = true) (h2 : ∀ x ∈ d2, x.isDigit = true)
    (h3 : ∀ x ∈ d3, x.isDigit = true) (hc : c.isDigit = true) :
    determine_urls (String.mk (d1 ++ '.' :: d2 ++ '.' :: d3 ++ 'r' :: 'c' :: c :: rest))
        bazel_filename =
      some ⟨"https://releases.bazel.build/" ++ String.mk (d1 ++ '.' :: d2 ++ '.' :: d3) ++
          "/" ++ String.mk ['r', 'c', c] ++ "/" ++ bazel_filename,
        "https://releases.bazel.build/" ++ String.mk (d1 ++ '.' :: d2 ++ '.' :: d3) ++
          "/" ++ String.mk ['r', 'c', c] ++ "/" ++ bazel_filename ++ ".sig"⟩ ∧
    determine_urls (String.mk (d1 ++ '.' :: d2 ++ '.' :: d3)) bazel_filename =
      some ⟨"https://releases.bazel.build/" ++ String.mk (d1 ++ '.' :: d2 ++ '.' :: d3) ++
          "/" ++ "release" ++ "/" ++ bazel_filename,
        "https://releases.bazel.build/" ++ String.mk (d1 ++ '.' :: d2 ++ '.' :: d3) ++
          "/" ++ "release" ++ "/" ++ bazel_filename ++ ".sig"⟩ := by
  constructor
  · have hm := matchVersionRc_rc d1 d2 d3 c rest h1 h2 h3 hc
    simp only [determine_urls, hm]
  · have hm := matchVersionRc_release d1 d2 d3 h1 h2 h3
    simp only [determine_urls, hm]

/-- Witness for C7 at version `0.20.0rc10` (and bare `0.20.0`): the rc
segment keeps only the first candidate digit. -/
theorem determine_urls_structure_witness :
    determine_urls (String.mk (['0'] ++ '.' :: ['2', '0'] ++ '.' :: ['0'] ++
        'r' :: 'c' :: '1' :: ['0'])) "bazel" =
      some ⟨"https://releases.bazel.build/" ++ String.mk (['0'] ++ '.' :: ['2', '0'] ++
          '.' :: ['0']) ++ "/" ++ String.mk ['r', 'c', '1'] ++ "/" ++ "bazel",
        "https://releases.bazel.build/" ++ String.mk (['0'] ++ '.' :: ['2', '0'] ++
          '.' :: ['0']) ++ "/" ++ String.mk ['r', 'c', '1'] ++ "/" ++ "bazel" ++ ".sig"⟩ ∧
    determine_urls (String.mk (['0'] ++ '.' :: ['2', '0'] ++ '.' :: ['0'])) "bazel" =
      some ⟨"https://releases.bazel.build/" ++ String.mk (['0'] ++ '.' :: ['2', '0'] ++
          '.' :: ['0']) ++ "/" ++ "release" ++ "/" ++ "bazel",
        "https://releases.bazel.build/" ++ String.mk (['0'] ++ '.' :: ['2', '0'] ++
          '.' :: ['0']) ++ "/" ++ "release" ++ "/" ++ "bazel" ++ ".sig"⟩ :=
  determine_urls_structure ['0'] ['2', '0'] ['0'] '1' ['0'] "bazel"
    (by decide) (by decide) (by decide) (by decide)

/-- Claim C1: with GPG installed and the ownertrust import, the key import
and the signature verification all succeeding, acquisition renames the
staging binary to the final cache path and sets its executable bit:
afterwards the cache file exists and is executable, the staging file no
longer exists, the ephemeral GPG trust-store directory no longer exists,
and the cache path is returned. -/
theorem download_verified_promotes_binary
    (machine operating_system version directory : String) (fs : FS) (g : GpgBehavior)
    (tempdir bazel_filename : String)
    (hname : determine_bazel_filename machine operating_system version = .ok bazel_filename)
    (hurls : (determine_urls version bazel_filename).isSome = true)
    (habsent : fs.files (directory ++ "/" ++ bazel_filename) = none)
    (hgpg : g.installed = true) (htrust : g.importTrustOk = true)
    (hkey : g.importKeyOk = true) (hver : g.verifyOk = true) :
    (download_bazel_into_directory machine operating_system version directory fs g tempdir).2 =
      .ok (directory ++ "/" ++ bazel_filename) ∧
    (download_bazel_into_directory machine operating_system version directory fs g
      tempdir).1.files (directory ++ "/" ++ bazel_filename) = some true ∧
    (download_bazel_into_directory machine operating_system version directory fs g
      tempdir).1.files (directory ++ "/" ++ bazel_filename ++ ".untrusted") = none ∧
    (download_bazel_into_directory machine operating_system version directory fs g
      tempdir).1.dirs tempdir = false := by
  obtain ⟨urls, hu⟩ := Option.isSome_iff_exists.1 hurls
  have h1 : directory ++ "/" ++ bazel_filename ++ ".untrusted" ≠
      directory ++ "/" ++ bazel_filename := append_ne_self (by decide)
  have h2 : directory ++ "/" ++ bazel_filename ≠
      directory ++ "/" ++ bazel_filename ++ ".untrusted" := self_ne_append (by decide)
  have h3 : directory ++ "/" ++ bazel_filename ≠
      directory ++ "/" ++ bazel_filename ++ ".sig" := self_ne_append (by decide)
  simp [download_bazel_into_directory, hname, hu, habsent, verify_authenticity, hgpg,
    htrust, hkey, hver, FS.write, FS.chmod755, FS.rename, FS.mkdir, FS.rmtree,
    h1, h2, h3]

/-- Witness for C1: an empty cache, a successful verification, and version
`0.20.0` on linux/x86_64. -/
theorem download_verified_promotes_binary_witness :
    (download_bazel_into_directory "x86_64" "linux" "0.20.0" "/h/bin"
      ⟨fun _ => none, fun _ => false⟩ ⟨true, true, true, true⟩ "/tmp/gpg").2 =
      .ok ("/h/bin" ++ "/" ++ "bazel-0.20.0-linux-x86_64") ∧
    (download_bazel_into_directory "x86_64" "linux" "0.20.0" "/h/bin"
      ⟨fun _ => none, fun _ => false⟩ ⟨true, true, true, true⟩ "/tmp/gpg").1.files
      ("/h/bin" ++ "/" ++ "bazel-0.20.0-linux-x86_64") = some true ∧
    (download_bazel_into_directory "x86_64" "linux" "0.20.0" "/h/bin"
      ⟨fun _ => none, fun _ => false⟩ ⟨true, true, true, true⟩ "/tmp/gpg").1.files
      ("/h/bin" ++ "/" ++ "bazel-0.20.0-linux-x86_64" ++ ".untrusted") = none ∧
    (download_bazel_into_directory "x86_64" "linux" "0.20.0" "/h/bin"
      ⟨fun _ => none, fun _ => false⟩ ⟨true, true, true, true⟩ "/tmp/gpg").1.dirs
      "/tmp/gpg" = false :=
  download_verified_promotes_binary "x86_64" "linux" "0.20.0" "/h/bin"
    ⟨fun _ => none, fun _ => false⟩ ⟨true, true, true, true⟩ "/tmp/gpg"
    "bazel-0.20.0-linux-x86_64" rfl rfl rfl rfl rfl rfl rfl

/-- Claim C2: with GPG installed but the signature failing verification,
acquisition deletes the staging binary, leaves nothing at the final cache
path, and raises `SystemExit` with the distinct documented
authentication-failure exit status 2; the function returns this fatal
error rather than retrying. -/
theorem download_auth_failure_exits
    (machine operating_system version directory : String) (fs : FS) (g : GpgBehavior)
    (tempdir bazel_filename : String)
    (hname : determine_bazel_filename machine operating_system version = .ok bazel_filename)
    (hurls : (determine_urls version bazel_filename).isSome = true)
    (habsent : fs.files (directory ++ "/" ++ bazel_filename) = none)
    (hgpg : g.installed = true) (htrust : g.importTrustOk = true)
    (hkey : g.importKeyOk = true) (hver : g.verifyOk = false) :
    (download_bazel_into_directory machine operating_system version directory fs g tempdir).2 =
      .error (.exit AUTHENTICATION_FAILURE_EXIT_CODE) ∧
    AUTHENTICATION_FAILURE_EXIT_CODE = 2 ∧
    (download_bazel_into_directory machine operating_system version directory fs g
      tempdir).1.files (directory ++ "/" ++ bazel_filename ++ ".untrusted") = none ∧
    (download_bazel_into_directory machine operating_system version directory fs g
      tempdir).1.files (directory ++ "/" ++ bazel_filename) = none ∧
    (download_bazel_into_directory machine operating_system version directory fs g
      tempdir).1.dirs tempdir = false := by
  obtain ⟨urls, hu⟩ := Option.isSome_iff_exists.1 hurls
  have h2 : directory ++ "/" ++ bazel_filename ≠
      directory ++ "/" ++ bazel_filename ++ ".untrusted" := self_ne_append (by decide)
  have h3 : directory ++ "/" ++ bazel_filename ≠
      directory ++ "/" ++ bazel_filename ++ ".sig" := self_ne_append (by decide)
  simp [download_bazel_into_directory, hname, hu, habsent, verify_authenticity, hgpg,
    htrust, hkey, hver, FS.write, FS.unlink, FS.mkdir, FS.rmtree, h2, h3,
    AUTHENTICATION_FAILURE_EXIT_CODE]

/-- Witness for C2: an empty cache and a failing signature verification for
version `0.20.0` on linux/x86_64. -/
theorem download_auth_failure_exits_witness :
    (download_bazel_into_directory "x86_64" "linux" "0.20.0" "/h/bin"
      ⟨fun _ => none, fun _ => false⟩ ⟨true, true, true, false⟩ "/tmp/gpg").2 =
      .error (.exit AUTHENTICATION_FAILURE_EXIT_CODE) ∧
    AUTHENTICATION_FAILURE_EXIT_CODE = 2 ∧
    (download_bazel_into_directory "x86_64" "linux" "0.20.0" "/h/bin"
      ⟨fun _ => none, fun _ => false⟩ ⟨true, true, true, false⟩ "/tmp/gpg").1.files
      ("/h/bin" ++ "/" ++ "bazel-0.20.0-linux-x86_64" ++ ".untrusted") = none ∧
    (download_bazel_into_directory "x86_64" "linux" "0.20.0" "/h/bin"
      ⟨fun _ => none, fun _ => false⟩ ⟨true, true, true, false⟩ "/tmp/gpg").1.files
      ("/h/bin" ++ "/" ++ "bazel-0.20.0-linux-x86_64") = none ∧
    (download_bazel_into_directory "x86_64" "linux" "0.20.0" "/h/bin"
      ⟨fun _ => none, fun _ => false⟩ ⟨true, true, true, false⟩ "/tmp/gpg").1.dirs
      "/tmp/gpg" = false :=
  download_auth_failure_exits "x86_64" "linux" "0.20.0" "/h/bin"
    ⟨fun _ => none, fun _ => false⟩ ⟨true, true, true, false⟩ "/tmp/gpg"
    "bazel-0.20.0-linux-x86_64" rfl rfl rfl rfl rfl rfl rfl

/-- Filesystem of the C3 counterexample: an executable project-local
wrapper script at `/workspace/tools/bazel`. -/
def wrapperFS : FS :=
  ⟨fun p => if p = "/workspace/tools/bazel" then some true else none, fun _ => false⟩

/-- Claim C3, counterexample: this code has no wrapper-delegation
mechanism.  Even with an executable wrapper script present at the fixed
relative path `tools/bazel` (and distinct from the launcher's own file),
`execute_bazel` spawns the resolved binary itself with the forwarded
arguments and adds no environment variable; it does not launch the
wrapper. -/
theorem wrapper_override_counterexample :
    wrapper_script_available wrapperFS "/workspace" = true ∧
    execute_bazel_launch "/home/user/.bazelisk/bin/bazel-0.20.0-linux-x86_64" ["build"] =
      ⟨["/home/user/.bazelisk/bin/bazel-0.20.0-linux-x86_64", "build"], []⟩ ∧
    ("/home/user/.bazelisk/bin/bazel-0.20.0-linux-x86_64" : String) ≠
      "/workspace/tools/bazel" :=
  ⟨rfl, rfl, by decide⟩

/-- Claim C3 as amended: before every invocation the launcher performs no
wrapper check at all: `execute_bazel` always spawns the resolved binary
itself with the forwarded argument vector and modifies no environment
variable; no `tools/<toolname>` override path is consulted. -/
theorem execute_bazel_launches_binary_directly (bazel_path : String) (argv : List String) :
    execute_bazel_launch bazel_path argv = ⟨bazel_path :: argv, []⟩ :=
  rfl

end Bazelisk
